import Mathlib

set_option autoImplicit false

namespace UniRag

/-!
Shallow embedding of the core pipeline of the university-leipzig-rag
repository: the chunking stage of `DocumentProcessor.segment_document`,
`DocumentProcessor.clean_text`, the heading-based page segmentation, and the
retrieval/answer orchestration of `RAGEngine` (src/document_processor.py,
src/rag_engine.py, src/config.py).
-!-/

/-- Python `len(range(start, stop, step))` for a positive `step`:
the number of `i ≥ 0` with `start + i*step < stop`. -/
def pyRangeLen (start stop step : Nat) : Nat :=
  (stop - start + step - 1) / step

/-- Python `range(start, stop, step)` for a positive `step`, as the arithmetic
sequence `start + i*step` for `i < pyRangeLen start stop step` (this is the
documented semantics of Python's `range` object). -/
def pyRangePos (start stop step : Nat) : List Nat :=
  (List.range (pyRangeLen start stop step)).map (fun k => start + k * step)

/-- Python `range(0, stop, step)` for an arbitrary integer `step`, as used by
`segment_document` with `step = chunk_size - overlap`: a zero step raises
`ValueError`, a negative step yields the empty sequence (since `stop ≥ 0`),
and a positive step yields the ascending arithmetic sequence. -/
def pyRange (stop : Nat) (step : Int) : Except String (List Nat) :=
  if step = 0 then .error "range() arg 3 must not be zero"
  else if step < 0 then .ok []
  else .ok (pyRangePos 0 stop step.toNat)

/-- Word windows of one section body, mirroring
`words[i:i + chunk_size] for i in range(s, len(words), chunk_size - overlap)`
in `DocumentProcessor.segment_document` (src/document_processor.py:98-99),
starting from position `s` (the source starts at `s = 0`). -/
def windowsFrom {α : Type} (ws : List α) (cs ov s : Nat) : List (List α) :=
  (pyRangePos s ws.length (cs - ov)).map (fun i => (ws.drop i).take cs)

/-- Word windows of one section body as produced by the chunking loop of
`segment_document` for a valid configuration (`overlap < chunk_size`). -/
def sectionWindows {α : Type} (ws : List α) (cs ov : Nat) : List (List α) :=
  windowsFrom ws cs ov 0

/-- Word windows of one section body including the Python `range` error
behavior for `chunk_size - overlap ≤ 0`. -/
def sectionWindowsE {α : Type} (ws : List α) (cs ov : Nat) :
    Except String (List (List α)) :=
  (pyRange ws.length ((cs : Int) - (ov : Int))).map
    (List.map (fun i => (ws.drop i).take cs))

/-- Concatenation of chunk word windows with the first `ov` (overlapping)
words of every chunk after the first removed. -/
def overlapJoin {α : Type} (ov : Nat) : List (List α) → List α
  | [] => []
  | c :: rest => c ++ (rest.map (fun w => w.drop ov)).flatten

/-- Exactly `ov` words are repeated between two consecutive chunks: the last
`ov` words of the earlier chunk are the first `ov` words of the later one.
This is the overlap clause of the chunk-reconstruction invariant as the
specification states it. -/
def exactOverlap {α : Type} (ov : Nat) (a b : List α) : Prop :=
  a.drop (a.length - ov) = b.take ov

/-- Repeated words between two consecutive chunks, as the code actually
produces them: `min ov |b|` words of overlap (the final chunk of a section can
be shorter than `ov`, in which case fewer than `ov` words are repeated). -/
def actualOverlap {α : Type} (ov : Nat) (a b : List α) : Prop :=
  a.drop (a.length - min ov b.length) = b.take (min ov b.length)

theorem pyRangeLen_zero_of_le {start stop step : Nat} (h : stop ≤ start) :
    pyRangeLen start stop step = 0 := by
  unfold pyRangeLen
  have hz : stop - start = 0 := by omega
  rw [hz]
  cases step with
  | zero => simp
  | succ n => exact Nat.div_eq_of_lt (by omega)

theorem pyRangePos_nil {start stop step : Nat} (h : stop ≤ start) :
    pyRangePos start stop step = [] := by
  unfold pyRangePos
  rw [pyRangeLen_zero_of_le h]
  rfl

theorem pyRangeLen_succ {start stop step : Nat} (hs : 0 < step)
    (h : start < stop) :
    pyRangeLen start stop step = pyRangeLen (start + step) stop step + 1 := by
  unfold pyRangeLen
  by_cases hle : stop ≤ start + step
  · have h1 : stop - start + step - 1 = (stop - start - 1) + step := by omega
    have h2 : stop - (start + step) = 0 := by omega
    rw [h1, Nat.add_div_right _ hs, Nat.div_eq_of_lt (by omega), h2]
    rw [Nat.div_eq_of_lt (by omega)]
  · have h1 : stop - start + step - 1 = (stop - (start + step) + step - 1) + step := by
      omega
    rw [h1, Nat.add_div_right _ hs]

theorem pyRangePos_cons {start stop step : Nat} (hs : 0 < step)
    (h : start < stop) :
    pyRangePos start stop step = start :: pyRangePos (start + step) stop step := by
  unfold pyRangePos
  rw [pyRangeLen_succ hs h, List.range_succ_eq_map, List.map_cons, List.map_map]
  refine congrArg₂ _ (by simp) (List.map_congr_left ?_)
  intro k _
  simp [Nat.succ_mul]
  omega

theorem windowsFrom_nil {α : Type} (ws : List α) (cs ov s : Nat)
    (h : ws.length ≤ s) : windowsFrom ws cs ov s = [] := by
  unfold windowsFrom
  rw [pyRangePos_nil h]
  rfl

theorem windowsFrom_cons {α : Type} (ws : List α) (cs ov s : Nat)
    (hov : ov < cs) (h : s < ws.length) :
    windowsFrom ws cs ov s =
      ((ws.drop s).take cs) :: windowsFrom ws cs ov (s + (cs - ov)) := by
  unfold windowsFrom
  rw [pyRangePos_cons (by omega) h]
  rfl

theorem flatten_drop_windowsFrom {α : Type} (ws : List α) (cs ov : Nat)
    (hov : ov < cs) :
    ∀ s, ((windowsFrom ws cs ov s).map (fun w => w.drop ov)).flatten =
      ws.drop (s + ov) := by
  have main : ∀ d s, ws.length - s ≤ d →
      ((windowsFrom ws cs ov s).map (fun w => w.drop ov)).flatten =
        ws.drop (s + ov) := by
    intro d
    induction d with
    | zero =>
      intro s hs
      rw [windowsFrom_nil ws cs ov s (by omega)]
      simp [List.drop_eq_nil_of_le (show ws.length ≤ s + ov by omega)]
    | succ d ih =>
      intro s hs
      by_cases h : s < ws.length
      · rw [windowsFrom_cons ws cs ov s hov h, List.map_cons, List.flatten_cons,
          ih (s + (cs - ov)) (by omega)]
        rw [List.drop_take, List.drop_drop]
        have hd : List.drop (s + (cs - ov) + ov) ws
            = List.drop (cs - ov) (List.drop (s + ov) ws) := by
          rw [List.drop_drop]
          congr 1
          omega
        rw [hd, List.take_append_drop]
      · rw [windowsFrom_nil ws cs ov s (by omega)]
        simp [List.drop_eq_nil_of_le (show ws.length ≤ s + ov by omega)]
  intro s
  exact main (ws.length - s) s le_rfl

/-- Reconstruction half of the chunking invariant: joining the word windows of
a section with the `overlap`-word prefixes of all non-initial windows removed
gives back the section's word sequence. -/
theorem overlapJoin_sectionWindows {α : Type} (ws : List α) (cs ov : Nat)
    (h0 : 0 < cs) (hov : ov < cs) :
    overlapJoin ov (sectionWindows ws cs ov) = ws := by
  unfold sectionWindows
  by_cases h : ws.length = 0
  · rw [windowsFrom_nil ws cs ov 0 (by omega)]
    simp [overlapJoin, List.length_eq_zero.mp h]
  · rw [windowsFrom_cons ws cs ov 0 hov (by omega)]
    simp only [overlapJoin]
    rw [flatten_drop_windowsFrom ws cs ov hov]
    have h1 : 0 + (cs - ov) + ov = cs := by omega
    rw [h1]
    simp [List.take_append_drop]

instance {α : Type} [DecidableEq α] {ov : Nat} :
    DecidableRel (exactOverlap (α := α) ov) :=
  fun a b => inferInstanceAs (Decidable (a.drop (a.length - ov) = b.take ov))

instance {α : Type} [DecidableEq α] {ov : Nat} :
    DecidableRel (actualOverlap (α := α) ov) :=
  fun a b => inferInstanceAs
    (Decidable (a.drop (a.length - min ov b.length) = b.take (min ov b.length)))

theorem window_actualOverlap {α : Type} (ws : List α) (cs ov s : Nat)
    (hov : ov < cs) (h1 : s + (cs - ov) < ws.length) :
    actualOverlap ov ((ws.drop s).take cs) ((ws.drop (s + (cs - ov))).take cs) := by
  unfold actualOverlap
  by_cases hc : s + cs ≤ ws.length
  · have hmo : min ov (((ws.drop (s + (cs - ov))).take cs).length) = ov := by
      rw [List.length_take, List.length_drop]
      omega
    rw [hmo]
    have hal : ((ws.drop s).take cs).length = cs := by
      rw [List.length_take, List.length_drop]
      omega
    rw [hal, List.drop_take, List.drop_drop, List.take_take]
    congr 1
    omega
  · have hmo : min ov (((ws.drop (s + (cs - ov))).take cs).length)
        = ws.length - (s + (cs - ov)) := by
      rw [List.length_take, List.length_drop]
      omega
    rw [hmo]
    have hal : ((ws.drop s).take cs).length = ws.length - s := by
      rw [List.length_take, List.length_drop]
      omega
    rw [hal, List.drop_take, List.drop_drop, List.take_take]
    rw [List.take_of_length_le (by rw [List.length_drop]; omega)]
    rw [List.take_of_length_le (by rw [List.length_drop]; omega)]
    congr 1
    omega

theorem chain'_windowsFrom {α : Type} (ws : List α) (cs ov : Nat)
    (hov : ov < cs) :
    ∀ s, List.Chain' (actualOverlap ov) (windowsFrom ws cs ov s) := by
  have main : ∀ d s, ws.length - s ≤ d →
      List.Chain' (actualOverlap ov) (windowsFrom ws cs ov s) := by
    intro d
    induction d with
    | zero =>
      intro s hs
      rw [windowsFrom_nil ws cs ov s (by omega)]
      exact List.chain'_nil
    | succ d ih =>
      intro s hs
      by_cases h : s < ws.length
      · rw [windowsFrom_cons ws cs ov s hov h, List.chain'_cons']
        refine ⟨?_, ih (s + (cs - ov)) (by omega)⟩
        intro y hy
        by_cases h2 : s + (cs - ov) < ws.length
        · rw [windowsFrom_cons ws cs ov _ hov h2] at hy
          simp only [List.head?_cons, Option.mem_some_iff] at hy
          rw [← hy]
          exact window_actualOverlap ws cs ov s hov h2
        · rw [windowsFrom_nil ws cs ov _ (by omega)] at hy
          simp at hy
      · rw [windowsFrom_nil ws cs ov s (by omega)]
        exact List.chain'_nil
  intro s
  exact main (ws.length - s) s le_rfl

theorem sectionWindowsE_ok {α : Type} (ws : List α) (cs ov : Nat)
    (h0 : 0 < cs) (hov : ov < cs) :
    sectionWindowsE ws cs ov = .ok (sectionWindows ws cs ov) := by
  unfold sectionWindowsE pyRange sectionWindows windowsFrom
  rw [if_neg (by omega), if_neg (by omega)]
  have h3 : ((cs : Int) - (ov : Int)).toNat = cs - ov := by omega
  simp [Except.map, h3]

/-- C1 (amended): for every section body and every valid configuration
(`overlap < chunkSize`, `chunkSize > 0`), concatenating in order the word
windows of the chunks that `segment_document` produces for that section, with
the overlapping words removed, reproduces the section's whitespace-delimited
word sequence exactly; between consecutive chunks, `min overlap |later chunk|`
words are repeated — that is, exactly `overlap` words except possibly at the
final chunk of the section, which can be shorter than `overlap` and then
repeats only its own length. The `range`-based loop itself succeeds (no
Python error) for such configurations. -/
theorem chunk_reconstruction_invariant {α : Type} (ws : List α) (cs ov : Nat)
    (h0 : 0 < cs) (hov : ov < cs) :
    overlapJoin ov (sectionWindows ws cs ov) = ws ∧
    List.Chain' (actualOverlap ov) (sectionWindows ws cs ov) ∧
    sectionWindowsE ws cs ov = .ok (sectionWindows ws cs ov) :=
  ⟨overlapJoin_sectionWindows ws cs ov h0 hov,
   chain'_windowsFrom ws cs ov hov 0,
   sectionWindowsE_ok ws cs ov h0 hov⟩

/-- Witness for C1 at a concrete input: an 11-word section with
`chunkSize = 12`, `overlap = 2`. -/
theorem chunk_reconstruction_invariant_witness :
    ((0 : Nat) < 12 ∧ (2 : Nat) < 12) ∧
    (overlapJoin 2 (sectionWindows (List.range 11) 12 2) = List.range 11 ∧
     List.Chain' (actualOverlap 2) (sectionWindows (List.range 11) 12 2) ∧
     sectionWindowsE (List.range 11) 12 2
       = .ok (sectionWindows (List.range 11) 12 2)) :=
  ⟨⟨by decide, by decide⟩,
   chunk_reconstruction_invariant (List.range 11) 12 2 (by decide) (by decide)⟩

/-- Counterexample to C1 as stated: with the valid configuration
`chunkSize = 12`, `overlap = 2` and an 11-word section, the stride is 10, the
chunks are words 0–10 and word 10 alone, and only one word (not `overlap = 2`)
is repeated between the two consecutive chunks. -/
theorem chunk_exact_overlap_counterexample :
    ((0 : Nat) < 12 ∧ (2 : Nat) < 12) ∧
    sectionWindows (List.range 11) 12 2 = [List.range 11, [10]] ∧
    ¬ exactOverlap 2 (List.range 11) [10] :=
  ⟨⟨by decide, by decide⟩, by decide, by decide⟩

/-- Python's whitespace class as matched by `\s` in `re.sub(r'\s+', ' ', …)`
and split on by `str.split()` (restricted to the ASCII range; the repository's
inputs and patterns only exercise these). -/
def isPySpace (c : Char) : Bool :=
  c == ' ' || c == '\t' || c == '\n' || c == '\r' || c == '\x0b' || c == '\x0c'

/-- Accumulator worker for `pyWords`: `acc` holds the current
partially-read word reversed. -/
def wordsGo (acc : List Char) : List Char → List (List Char)
  | [] => if acc.isEmpty then [] else [acc.reverse]
  | c :: rest =>
    if isPySpace c then
      if acc.isEmpty then wordsGo [] rest else acc.reverse :: wordsGo [] rest
    else
      wordsGo (c :: acc) rest

/-- Python `str.split()` with no arguments: split on runs of whitespace,
discarding empty strings, as used by `seg["text"].split()` and
`len(cleaned.split())` in `segment_document`. -/
def pyWords (s : List Char) : List (List Char) :=
  wordsGo [] s

/-- Python `" ".join(words)` as used for the chunk text. -/
def joinWords (ws : List (List Char)) : List Char :=
  List.intercalate [' '] ws

/-- Section produced by the segmentation half of
`DocumentProcessor.segment_document` (a dict with keys `title`, `text`,
`page_number`). -/
structure Segment where
  title : List Char
  text : List Char
  page_number : Nat
deriving DecidableEq, Repr

/-- Chunk produced by the chunking half of `segment_document`: the joined word
window plus its metadata dict. -/
structure Chunk where
  text : List Char
  title : List Char
  filename : List Char
  page_number : Nat
  chunk_index : Nat
  pdf_path : List Char
deriving DecidableEq, Repr

/-- Inner body of the chunking loop: one chunk per window start position `i`,
with `chunk_counter += 1` threaded through `counter` (the emitted index is the
incremented counter). -/
def windowChunks (seg : Segment) (fname ppath : List Char) (cs : Nat) :
    Nat → List Nat → List Chunk
  | _, [] => []
  | counter, i :: rest =>
    { text := joinWords (((pyWords seg.text).drop i).take cs)
      title := seg.title
      filename := fname
      page_number := seg.page_number
      chunk_index := counter + 1
      pdf_path := ppath : Chunk } :: windowChunks seg fname ppath cs (counter + 1) rest

/-- Chunking loop of `segment_document` (src/document_processor.py:93-111):
walks the segments, splits each into words, windows them by
`range(0, len(words), chunk_size - overlap)` and numbers the chunks with one
document-wide counter starting at 1. A `ValueError` raised by `range`
(zero step) propagates out; the counter is threaded in `counter`. -/
def chunkStageGo (cs ov : Nat) (fname ppath : List Char) :
    Nat → List Segment → Except String (List Chunk)
  | _, [] => .ok []
  | counter, seg :: rest =>
    match pyRange (pyWords seg.text).length ((cs : Int) - (ov : Int)) with
    | .error e => .error e
    | .ok idxs =>
      match chunkStageGo cs ov fname ppath (counter + idxs.length) rest with
      | .error e => .error e
      | .ok more =>
        .ok (windowChunks seg fname ppath cs counter idxs ++ more)

/-- Chunking stage of `segment_document` over the whole segment list, with the
document-wide chunk counter starting at 0 (first emitted index is 1). -/
def chunkStage (segs : List Segment) (fname ppath : List Char) (cs ov : Nat) :
    Except String (List Chunk) :=
  chunkStageGo cs ov fname ppath 0 segs

/-- Required top-level keys checked by `Config._validate_config`
(src/config.py:83-87). -/
def requiredConfigKeys : List (List Char) :=
  ["app".toList, "chroma".toList, "ollama".toList, "documents".toList,
   "spacy".toList, "logging".toList]

/-- Embedding of `Config._validate_config`: it only checks that each required
top-level key is present, raising `ValueError` on the first missing one; it
performs no check on `chunk_size`/`chunk_overlap` values. -/
def validateConfigKeys (present : List (List Char)) : Except String Unit :=
  match requiredConfigKeys.find? (fun k => !(present.contains k)) with
  | some k => .error ("Missing required configuration key: " ++ String.mk k)
  | none => .ok ()

theorem chunkStageGo_negative_stride (fname ppath : List Char) (cs ov : Nat)
    (hlt : cs < ov) :
    ∀ counter segs, chunkStageGo cs ov fname ppath counter segs = .ok [] := by
  intro counter segs
  induction segs generalizing counter with
  | nil => rfl
  | cons seg rest ih =>
    rw [chunkStageGo]
    have hr : pyRange (pyWords seg.text).length ((cs : Int) - (ov : Int))
        = .ok [] := by
      unfold pyRange
      rw [if_neg (by omega), if_pos (by omega)]
    rw [hr]
    simp [ih, windowChunks]

/-- C2 (amended): with `overlap = chunkSize` the chunking stage fails with
Python's `ValueError` for a zero `range` step as soon as there is at least one
section, before producing any chunk; with `overlap > chunkSize` it raises
nothing and silently produces zero chunks for every section (the negative
stride makes every `range` empty); and `Config._validate_config` checks only
the presence of the required top-level keys, so no configuration error is
raised at startup for any `chunk_size`/`chunk_overlap` values. -/
theorem chunk_misconfiguration_behavior (fname ppath : List Char) (cs ov : Nat) :
    (cs < ov → ∀ segs, chunkStage segs fname ppath cs ov = .ok []) ∧
    (∀ seg rest, chunkStage (seg :: rest) fname ppath cs cs
      = .error "range() arg 3 must not be zero") ∧
    (∀ present, (∀ k ∈ requiredConfigKeys, present.contains k = true) →
      validateConfigKeys present = .ok ()) := by
  refine ⟨?_, ?_, ?_⟩
  · intro hlt segs
    exact chunkStageGo_negative_stride fname ppath cs ov hlt 0 segs
  · intro seg rest
    unfold chunkStage
    rw [chunkStageGo]
    have hr : pyRange (pyWords seg.text).length ((cs : Int) - (cs : Int))
        = .error "range() arg 3 must not be zero" := by
      unfold pyRange
      rw [if_pos (by omega)]
    rw [hr]
  · intro present hall
    unfold validateConfigKeys
    have : requiredConfigKeys.find? (fun k => !(present.contains k)) = none := by
      rw [List.find?_eq_none]
      intro k hk
      rw [hall k hk]
      decide
    rw [this]

/-- Witness for C2 (amended) at concrete inputs: a one-section document with
`chunkSize = 5` and `overlap = 7` (silently empty), the same with
`overlap = 5` (ValueError), and a configuration containing all required keys. -/
theorem chunk_misconfiguration_behavior_witness :
    chunkStage [{ title := "T".toList, text := "a b c".toList, page_number := 1 }]
      "f.pdf".toList "/p".toList 5 7 = .ok [] ∧
    chunkStage [{ title := "T".toList, text := "a b c".toList, page_number := 1 }]
      "f.pdf".toList "/p".toList 5 5 = .error "range() arg 3 must not be zero" ∧
    validateConfigKeys requiredConfigKeys = .ok () :=
  ⟨(chunk_misconfiguration_behavior "f.pdf".toList "/p".toList 5 7).1 (by decide) _,
   (chunk_misconfiguration_behavior "f.pdf".toList "/p".toList 5 5).2.1 _ _,
   (chunk_misconfiguration_behavior "f.pdf".toList "/p".toList 5 5).2.2
     requiredConfigKeys (by decide)⟩

/-- Counterexample to C2 as stated: with `overlap = 7 > 5 = chunkSize` and a
non-empty section of 12 words, the chunking stage raises no error at all and
silently produces zero chunks — `range(0, 12, -2)` is simply empty. -/
theorem chunk_misconfiguration_counterexample :
    chunkStage
      [{ title := "T".toList
         text := "w1 w2 w3 w4 w5 w6 w7 w8 w9 w10 w11 w12".toList
         page_number := 1 }]
      "f.pdf".toList "/tmp/f.pdf".toList 5 7 = .ok [] := by
  rfl

/-- C3 (amended): for a document whose segmentation yields exactly two
sections of 90 and 40 words on one page, with `chunkSize = 50` and
`overlap = 10` (stride 40), the chunking stage emits exactly 3 chunks from the
first section — words 0–49, 40–89 and 80–89 (`range(0, 90, 40) = [0, 40, 80]`,
so a final short window of 10 words is also emitted) — and exactly 1 chunk
from the second section, with `chunk_index` values 1, 2, 3, 4. -/
theorem scenarioA_chunks (t1 t2 x1 x2 : List Char) (p1 p2 : Nat)
    (fname ppath : List Char)
    (h1 : (pyWords x1).length = 90) (h2 : (pyWords x2).length = 40) :
    chunkStage [⟨t1, x1, p1⟩, ⟨t2, x2, p2⟩] fname ppath 50 10 =
      .ok [⟨joinWords ((pyWords x1).take 50), t1, fname, p1, 1, ppath⟩,
           ⟨joinWords (((pyWords x1).drop 40).take 50), t1, fname, p1, 2, ppath⟩,
           ⟨joinWords (((pyWords x1).drop 80).take 50), t1, fname, p1, 3, ppath⟩,
           ⟨joinWords ((pyWords x2).take 50), t2, fname, p2, 4, ppath⟩] := by
  have e1 : pyRange 90 (40 : Int) = .ok [0, 40, 80] := by rfl
  have e2 : pyRange 40 (40 : Int) = .ok [0] := by rfl
  simp only [chunkStage, chunkStageGo, h1, h2]
  norm_num [e1, e2, windowChunks, List.drop_zero, List.append_nil]

/-- Concrete 90-word first-section text for scenario A. -/
def scenarioTextA : List Char :=
  joinWords ((List.range 90).map (fun n => ['w', Char.ofNat (48 + n)]))

/-- Concrete 40-word second-section text for scenario A. -/
def scenarioTextB : List Char :=
  joinWords ((List.range 40).map (fun n => ['v', Char.ofNat (48 + n)]))

/-- Concrete two-section segmentation result for scenario A. -/
def scenarioSegs : List Segment :=
  [⟨"Ziele:".toList, scenarioTextA, 1⟩, ⟨"Dauer:".toList, scenarioTextB, 1⟩]

/-- Witness for C3 (amended) at the concrete scenario-A input. -/
theorem scenarioA_chunks_witness :
    chunkStage scenarioSegs "f.pdf".toList "/tmp/f.pdf".toList 50 10 =
      .ok [⟨joinWords ((pyWords scenarioTextA).take 50), "Ziele:".toList,
              "f.pdf".toList, 1, 1, "/tmp/f.pdf".toList⟩,
           ⟨joinWords (((pyWords scenarioTextA).drop 40).take 50), "Ziele:".toList,
              "f.pdf".toList, 1, 2, "/tmp/f.pdf".toList⟩,
           ⟨joinWords (((pyWords scenarioTextA).drop 80).take 50), "Ziele:".toList,
              "f.pdf".toList, 1, 3, "/tmp/f.pdf".toList⟩,
           ⟨joinWords ((pyWords scenarioTextB).take 50), "Dauer:".toList,
              "f.pdf".toList, 1, 4, "/tmp/f.pdf".toList⟩] :=
  scenarioA_chunks "Ziele:".toList "Dauer:".toList scenarioTextA scenarioTextB
    1 1 "f.pdf".toList "/tmp/f.pdf".toList (by decide) (by decide)

/-- Counterexample to C3 as stated: on the concrete scenario-A input the
chunking stage emits 4 chunks (3 from the 90-word section, since
`range(0, 90, 40)` has a third start position 80), not 3, and the
`chunk_index` values are 1, 2, 3, 4 rather than 1, 2, 3. -/
theorem scenarioA_counterexample :
    (((chunkStage scenarioSegs "f.pdf".toList "/tmp/f.pdf".toList 50 10).toOption.getD
        []).map Chunk.chunk_index = [1, 2, 3, 4]) ∧
    (((chunkStage scenarioSegs "f.pdf".toList "/tmp/f.pdf".toList 50 10).toOption.getD
        []).filter (fun c => c.title == "Ziele:".toList)).length = 3 ∧
    ¬ (((chunkStage scenarioSegs "f.pdf".toList "/tmp/f.pdf".toList 50 10).toOption.getD
        []).filter (fun c => c.title == "Ziele:".toList)).length = 2 ∧
    ¬ (((chunkStage scenarioSegs "f.pdf".toList "/tmp/f.pdf".toList 50 10).toOption.getD
        []).map Chunk.chunk_index = [1, 2, 3]) := by
  refine ⟨by decide, by decide, by decide, by decide⟩

/-- Worker for `re.sub(r'\s+', ' ', text)`: the flag records whether the
previous input character was part of a whitespace run already replaced by a
single space. -/
def collapseGo : Bool → List Char → List Char
  | _, [] => []
  | prev, c :: rest =>
    if isPySpace c then
      if prev then collapseGo true rest else ' ' :: collapseGo true rest
    else c :: collapseGo false rest

/-- Python `re.sub(r'\s+', ' ', text)`: every maximal whitespace run becomes
one space. -/
def collapseWS (l : List Char) : List Char :=
  collapseGo false l

/-- Python `text.replace('\n', ' ')` (a no-op after `collapseWS`, since the
substitution already consumed every newline). -/
def replaceNl (l : List Char) : List Char :=
  l.map (fun c => if c = '\n' then ' ' else c)

/-- Leading-whitespace removal, half of Python `str.strip()`. -/
def lstrip (l : List Char) : List Char :=
  l.dropWhile isPySpace

/-- Trailing-whitespace removal, the other half of Python `str.strip()`. -/
def rstrip (l : List Char) : List Char :=
  (l.reverse.dropWhile isPySpace).reverse

/-- Python `str.strip()`. -/
def pyStrip (l : List Char) : List Char :=
  rstrip (lstrip l)

/-- Embedding of `DocumentProcessor.clean_text`
(src/document_processor.py:27-31): whitespace-run collapse, newline
replacement, then strip. -/
def cleanText (l : List Char) : List Char :=
  pyStrip (replaceNl (collapseWS l))

theorem collapseGo_spaces (l : List Char) :
    ∀ b, ∀ c ∈ collapseGo b l, isPySpace c = true → c = ' ' := by
  induction l with
  | nil =>
    intro b c hc
    simp [collapseGo] at hc
  | cons a r ih =>
    intro b c hc hsp
    by_cases ha : isPySpace a = true
    · cases b with
      | true => exact ih true c (by simpa [collapseGo, ha] using hc) hsp
      | false =>
        rw [collapseGo] at hc
        simp only [ha, if_true, Bool.false_eq_true, if_false, List.mem_cons] at hc
        rcases hc with hc | hc
        · exact hc
        · exact ih true c hc hsp
    · rw [collapseGo] at hc
      simp only [ha, Bool.false_eq_true, if_false, List.mem_cons] at hc
      rcases hc with hc | hc
      · rw [hc] at hsp
        exact absurd hsp (by simp [ha])
      · exact ih false c hc hsp

theorem replaceNl_of_spaces (m : List Char)
    (h : ∀ c ∈ m, isPySpace c = true → c = ' ') : replaceNl m = m := by
  induction m with
  | nil => rfl
  | cons a t ih =>
    unfold replaceNl at ih ⊢
    simp only [List.map_cons]
    have ha : (if a = '\n' then ' ' else a) = a := by
      by_cases han : a = '\n'
      · have := h a (List.mem_cons_self a t) (by rw [han]; decide)
        rw [han] at this
        exact absurd this (by decide)
      · exact if_neg han
    rw [ha, ih (fun c hc hsp => h c (List.mem_cons_of_mem a hc) hsp)]

theorem replaceNl_collapseGo (l : List Char) (b : Bool) :
    replaceNl (collapseGo b l) = collapseGo b l :=
  replaceNl_of_spaces _ (collapseGo_spaces l b)

theorem lstrip_collapseGo_true (l : List Char) :
    lstrip (collapseGo true l) = collapseGo true l := by
  induction l with
  | nil => rfl
  | cons c r ih =>
    by_cases hc : isPySpace c = true
    · simp [collapseGo, hc]
      exact ih
    · simp [collapseGo, hc]
      unfold lstrip
      rw [List.dropWhile_cons, if_neg (by simp [hc])]

theorem lstrip_collapseGo_false (l : List Char) :
    lstrip (collapseGo false l) = collapseGo true l := by
  induction l with
  | nil => rfl
  | cons c r ih =>
    by_cases hc : isPySpace c = true
    · simp [collapseGo, hc]
      unfold lstrip
      rw [List.dropWhile_cons, if_pos (by simp [isPySpace])]
      exact lstrip_collapseGo_true r
    · simp [collapseGo, hc]
      unfold lstrip
      rw [List.dropWhile_cons, if_neg (by simp [hc])]

theorem rstrip_of_noSpace (m : List Char)
    (h : ∀ c ∈ m, isPySpace c = false) : rstrip m = m := by
  unfold rstrip
  rcases hm : m.reverse with _ | ⟨c, t⟩
  · simp_all
  · rw [List.dropWhile_cons, if_neg ?_, ← hm, List.reverse_reverse]
    have hc : c ∈ m := by
      rw [← List.mem_reverse, hm]
      exact List.mem_cons_self c t
    simp [h c hc]

theorem rstrip_append (A B : List Char) (h : rstrip B ≠ []) :
    rstrip (A ++ B) = A ++ rstrip B := by
  unfold rstrip at h ⊢
  rw [List.reverse_append, List.dropWhile_append]
  have hne : (B.reverse.dropWhile isPySpace).isEmpty = false := by
    rcases hB : B.reverse.dropWhile isPySpace with _ | ⟨c, t⟩
    · rw [hB] at h
      simp at h
    · rfl
  rw [hne]
  simp [List.reverse_append]

theorem joinWords_singleton (w : List Char) : joinWords [w] = w := by
  simp [joinWords, List.intercalate]

theorem joinWords_cons (w : List Char) {ws : List (List Char)} (h : ws ≠ []) :
    joinWords (w :: ws) = w ++ ' ' :: joinWords ws := by
  obtain ⟨y, ys, rfl⟩ := List.exists_cons_of_ne_nil h
  simp [joinWords, List.intercalate]

theorem joinWords_ne_nil {ws : List (List Char)} (hne : ws ≠ [])
    (hw : ∀ w ∈ ws, w ≠ []) : joinWords ws ≠ [] := by
  obtain ⟨w, rest, rfl⟩ := List.exists_cons_of_ne_nil hne
  cases rest with
  | nil =>
    rw [joinWords_singleton]
    exact hw w (List.mem_cons_self w [])
  | cons y ys =>
    rw [joinWords_cons w (by simp)]
    simp

theorem wordsGo_shape (l : List Char) :
    ∀ acc, (∀ c ∈ acc, isPySpace c = false) →
      ∀ w ∈ wordsGo acc l, w ≠ [] ∧ ∀ c ∈ w, isPySpace c = false := by
  induction l with
  | nil =>
    intro acc hacc w hw
    cases acc with
    | nil => simp [wordsGo] at hw
    | cons a as =>
      simp [wordsGo] at hw
      subst hw
      refine ⟨by simp, ?_⟩
      intro c hc
      rw [← List.reverse_cons] at hc
      exact hacc c (List.mem_reverse.mp hc)
  | cons c r ih =>
    intro acc hacc w hw
    rw [wordsGo] at hw
    by_cases hc : isPySpace c = true
    · cases acc with
      | nil =>
        simp only [hc, if_true, List.isEmpty_nil] at hw
        exact ih [] (by simp) w hw
      | cons a as =>
        simp only [hc, if_true, List.isEmpty_cons, Bool.false_eq_true, if_false,
          List.mem_cons] at hw
        rcases hw with hw | hw
        · subst hw
          refine ⟨by simp, ?_⟩
          intro x hx
          exact hacc x (List.mem_reverse.mp hx)
        · exact ih [] (by simp) w hw
    · simp only [hc, Bool.false_eq_true, if_false] at hw
      refine ih (c :: acc) ?_ w hw
      intro x hx
      rcases List.mem_cons.mp hx with hx | hx
      · rw [hx]
        simpa using hc
      · exact hacc x hx

theorem wordsGo_ne_nil_of_acc (l : List Char) :
    ∀ acc, acc ≠ [] → wordsGo acc l ≠ [] := by
  induction l with
  | nil =>
    intro acc hacc
    obtain ⟨a, as, rfl⟩ := List.exists_cons_of_ne_nil hacc
    simp [wordsGo]
  | cons c r ih =>
    intro acc hacc
    obtain ⟨a, as, rfl⟩ := List.exists_cons_of_ne_nil hacc
    rw [wordsGo]
    by_cases hc : isPySpace c = true
    · simp [hc]
    · simp only [hc, Bool.false_eq_true, if_false]
      exact ih (c :: a :: as) (by simp)

theorem collapseGo_true_of_allSpace (l : List Char)
    (h : ∀ c ∈ l, isPySpace c = true) : collapseGo true l = [] := by
  induction l with
  | nil => rfl
  | cons c r ih =>
    rw [collapseGo, if_pos (h c (List.mem_cons_self c r)), if_pos rfl]
    exact ih (fun x hx => h x (List.mem_cons_of_mem c hx))

theorem wordsGo_nil_of_allSpace (l : List Char)
    (h : ∀ c ∈ l, isPySpace c = true) : wordsGo [] l = [] := by
  induction l with
  | nil => rfl
  | cons c r ih =>
    rw [wordsGo]
    simp only [h c (List.mem_cons_self c r), if_true, List.isEmpty_nil]
    exact ih (fun x hx => h x (List.mem_cons_of_mem c hx))

theorem wordsGo_ne_nil_of_nonSpace (l : List Char)
    (h : ¬ ∀ c ∈ l, isPySpace c = true) : wordsGo [] l ≠ [] := by
  induction l with
  | nil => exact absurd (by simp) h
  | cons c r ih =>
    rw [wordsGo]
    by_cases hc : isPySpace c = true
    · simp only [hc, if_true, List.isEmpty_nil]
      refine ih ?_
      intro hall
      exact h (fun x hx => by
        rcases List.mem_cons.mp hx with hx | hx
        · rw [hx]; exact hc
        · exact hall x hx)
    · simp only [hc, Bool.false_eq_true, if_false]
      exact wordsGo_ne_nil_of_acc r [c] (by simp)

theorem collapse_words_main (l : List Char) :
    (rstrip (collapseGo true l) = joinWords (wordsGo [] l)) ∧
    (∀ acc, acc ≠ [] → (∀ c ∈ acc, isPySpace c = false) →
      rstrip (acc.reverse ++ collapseGo false l) = joinWords (wordsGo acc l)) := by
  induction l with
  | nil =>
    constructor
    · rfl
    · intro acc hne hsp
      obtain ⟨a, as, rfl⟩ := List.exists_cons_of_ne_nil hne
      show rstrip ((a :: as).reverse ++ []) = joinWords (wordsGo (a :: as) [])
      rw [List.append_nil]
      have hw : wordsGo (a :: as) [] = [(a :: as).reverse] := by
        simp [wordsGo]
      rw [hw, joinWords_singleton]
      refine rstrip_of_noSpace _ ?_
      intro c hc
      exact hsp c (List.mem_reverse.mp hc)
  | cons c r ih =>
    obtain ⟨ihP, ihQ⟩ := ih
    constructor
    · by_cases hc : isPySpace c = true
      · have h1 : collapseGo true (c :: r) = collapseGo true r := by
          rw [collapseGo, if_pos hc, if_pos rfl]
        have h2 : wordsGo [] (c :: r) = wordsGo [] r := by
          rw [wordsGo]
          simp [hc]
        rw [h1, h2]
        exact ihP
      · have h1 : collapseGo true (c :: r) = c :: collapseGo false r := by
          rw [collapseGo, if_neg (by simp [hc])]
        have h2 : wordsGo [] (c :: r) = wordsGo [c] r := by
          rw [wordsGo]
          simp [hc]
        rw [h1, h2]
        have := ihQ [c] (by simp) (by simpa using hc)
        simpa using this
    · intro acc hne hsp
      obtain ⟨a, as, rfl⟩ := List.exists_cons_of_ne_nil hne
      by_cases hc : isPySpace c = true
      · have h1 : collapseGo false (c :: r) = ' ' :: collapseGo true r := by
          rw [collapseGo, if_pos hc, if_neg (by simp)]
        have h2 : wordsGo (a :: as) (c :: r)
            = (a :: as).reverse :: wordsGo [] r := by
          rw [wordsGo]
          simp [hc]
        rw [h1, h2]
        by_cases hall : ∀ x ∈ r, isPySpace x = true
        · rw [collapseGo_true_of_allSpace r hall, wordsGo_nil_of_allSpace r hall,
            joinWords_singleton]
          have hrev : ((a :: as).reverse ++ [' ', ]).reverse
              = ' ' :: (a :: as) := by
            simp
          unfold rstrip
          rw [hrev, List.dropWhile_cons, if_pos (by decide)]
          have hd : List.dropWhile isPySpace (a :: as) = a :: as := by
            rw [List.dropWhile_cons,
              if_neg (by simp [hsp a (List.mem_cons_self a as)])]
          rw [hd]
        · have hwne : wordsGo [] r ≠ [] := wordsGo_ne_nil_of_nonSpace r hall
          have hfirst : ∀ w ∈ wordsGo [] r, w ≠ [] := by
            intro w hw
            exact (wordsGo_shape r [] (by simp) w hw).1
          have hjne : joinWords (wordsGo [] r) ≠ [] :=
            joinWords_ne_nil hwne hfirst
          have hrne : rstrip (collapseGo true r) ≠ [] := by
            rw [ihP]
            exact hjne
          have hsplit : (a :: as).reverse ++ ' ' :: collapseGo true r
              = ((a :: as).reverse ++ [' ']) ++ collapseGo true r := by
            simp
          rw [hsplit, rstrip_append _ _ hrne, ihP,
            joinWords_cons _ hwne]
          simp
      · have h1 : collapseGo false (c :: r) = c :: collapseGo false r := by
          rw [collapseGo, if_neg (by simp [hc])]
        have h2 : wordsGo (a :: as) (c :: r) = wordsGo (c :: a :: as) r := by
          rw [wordsGo]
          simp [hc]
        rw [h1, h2]
        have hchars : ∀ x ∈ (c :: a :: as), isPySpace x = false := by
          intro x hx
          rcases List.mem_cons.mp hx with hx | hx
          · rw [hx]
            simpa using hc
          · exact hsp x hx
        have hq := ihQ (c :: a :: as) (by simp) hchars
        have hrw : (c :: a :: as).reverse ++ collapseGo false r
            = (a :: as).reverse ++ c :: collapseGo false r := by
          simp
        rw [hrw] at hq
        exact hq

theorem wordsGo_final (acc : List Char) (hacc : acc ≠ []) :
    wordsGo acc [] = [acc.reverse] := by
  obtain ⟨a, as, rfl⟩ := List.exists_cons_of_ne_nil hacc
  simp [wordsGo]

theorem wordsGo_emit (acc : List Char) (hacc : acc ≠ []) (c : Char)
    (t : List Char) (hc : isPySpace c = true) :
    wordsGo acc (c :: t) = acc.reverse :: wordsGo [] t := by
  obtain ⟨a, as, rfl⟩ := List.exists_cons_of_ne_nil hacc
  rw [wordsGo]
  simp [hc]

theorem wordsGo_word_prefix (w : List Char) :
    ∀ acc t, (∀ c ∈ w, isPySpace c = false) →
      wordsGo acc (w ++ t) = wordsGo (w.reverse ++ acc) t := by
  induction w with
  | nil =>
    intro acc t h
    simp
  | cons c w' ih =>
    intro acc t h
    have hc : isPySpace c = false := h c (List.mem_cons_self c w')
    rw [List.cons_append, wordsGo]
    simp only [hc, Bool.false_eq_true, if_false]
    rw [ih (c :: acc) t (fun x hx => h x (List.mem_cons_of_mem c hx))]
    congr 1
    simp

theorem pyWords_joinWords (ws : List (List Char))
    (h : ∀ w ∈ ws, w ≠ [] ∧ ∀ c ∈ w, isPySpace c = false) :
    pyWords (joinWords ws) = ws := by
  induction ws with
  | nil => rfl
  | cons w rest ih =>
    obtain ⟨hne, hch⟩ := h w (List.mem_cons_self w rest)
    have hrne : w.reverse ≠ [] := by simpa using hne
    cases rest with
    | nil =>
      rw [joinWords_singleton]
      unfold pyWords
      have h2 := wordsGo_word_prefix w [] [] hch
      rw [List.append_nil, List.append_nil] at h2
      rw [h2, wordsGo_final _ hrne, List.reverse_reverse]
    | cons w2 rest2 =>
      rw [joinWords_cons w (by simp)]
      unfold pyWords
      have h2 := wordsGo_word_prefix w [] (' ' :: joinWords (w2 :: rest2)) hch
      rw [List.append_nil] at h2
      rw [h2, wordsGo_emit _ hrne _ _ (by decide), List.reverse_reverse]
      have ihr := ih (fun x hx => h x (List.mem_cons_of_mem w hx))
      unfold pyWords at ihr
      rw [ihr]

theorem cleanText_eq_joinWords (x : List Char) :
    cleanText x = joinWords (pyWords x) := by
  unfold cleanText collapseWS pyStrip pyWords
  rw [replaceNl_collapseGo x false, lstrip_collapseGo_false x]
  exact (collapse_words_main x).1

theorem cleanText_idem (x : List Char) :
    cleanText (cleanText x) = cleanText x := by
  rw [cleanText_eq_joinWords x, cleanText_eq_joinWords (joinWords (pyWords x))]
  rw [pyWords_joinWords (pyWords x) (wordsGo_shape x [] (by simp))]

/-- C8: `clean_text` is idempotent and total, and it normalizes its input by
collapsing every whitespace run (newlines included, since `\s` covers them)
to a single space and trimming both ends — equivalently, its output is the
single-space join of the input's whitespace-delimited words. -/
theorem clean_text_normalization :
    (∀ x : List Char, cleanText (cleanText x) = cleanText x) ∧
    (∀ x : List Char, cleanText x = joinWords (pyWords x)) :=
  ⟨cleanText_idem, cleanText_eq_joinWords⟩

/-- Heading keywords of the `section_pattern` regex in `segment_document`
(src/document_processor.py:56-59), in the alternation order of the pattern. -/
def headingKeywords : List (List Char) :=
  ["Modul".toList, "Modulname".toList, "Inhalt".toList, "Ziele".toList,
   "Leistungspunkte".toList, "Dauer".toList, "Voraussetzungen".toList,
   "Studienleistungen".toList, "Empfohlene Literatur".toList,
   "Prüfungen".toList, "Lehrformen".toList]

/-- Case-insensitive character comparison, for `re.IGNORECASE`. -/
def ciEq (a b : Char) : Bool :=
  a.toLower == b.toLower

/-- Case-insensitive prefix test of a keyword against the text. -/
def ciPrefix : List Char → List Char → Bool
  | [], _ => true
  | _ :: _, [] => false
  | k :: ks, c :: t => ciEq k c && ciPrefix ks t

/-- Remainder of the text after the first colon, or `none` when no colon
occurs: this is exactly when `[^:]*:` can be completed. -/
def afterColon : List Char → Option (List Char)
  | [] => none
  | c :: rest => if c = ':' then some rest else afterColon rest

/-- Match of the section-heading pattern
`(?m)^(?:\s*(Modul|…|Lehrformen)[^:]*:)` (case-insensitive) at position 0,
returning the text of capture group 1 (the keyword as spelled in the input)
and the remainder after the matched colon. The output of `clean_text` contains
no newline, so `(?m)^` can match only at position 0: this single anchored
match is the entire behavior of both `re.split` and `re.match` with this
pattern on cleaned text. Alternatives are tried left to right as in Python;
for the one overlapping pair `Modul`/`Modulname`, a colon exists after the
shorter match iff it exists after the longer one, so taking the first matching
keyword is faithful to the backtracking engine. -/
def matchHeadingAt (s : List Char) : Option (List Char × List Char) :=
  let t := s.dropWhile isPySpace
  match headingKeywords.find? (fun k => ciPrefix k t) with
  | none => none
  | some k =>
    match afterColon (t.drop k.length) with
    | none => none
    | some rest => some (t.take k.length, rest)

/-- Python `re.split(section_pattern, cleaned)`: with at most one possible
match (anchored at position 0), the result is either the whole string (no
match) or `["", captured_keyword, remainder]`. -/
def splitHeading (s : List Char) : List (List Char) :=
  match matchHeadingAt s with
  | some (cap, rest) => [[], cap, rest]
  | none => [s]

/-- Python `re.match(section_pattern, part)` as a Boolean, used to re-test
each split piece inside the loop of `segment_document`. -/
def reMatchesHeading (part : List Char) : Bool :=
  (matchHeadingAt part).isSome

/-- Loop over the split pieces (src/document_processor.py:79-90): a piece
matching the pattern becomes the current title, any other piece is cleaned and
emitted as a body segment when longer than 10 words, with the current title or
the sentinel `"Abschnitt"` when no title was set. -/
def segPieces (pageNum : Nat) : List Char → List (List Char) → List Segment
  | _, [] => []
  | title, p :: ps =>
    if reMatchesHeading p then segPieces pageNum (pyStrip p) ps
    else
      if 10 < (pyWords (cleanText p)).length then
        { title := if title = [] then "Abschnitt".toList else title
          text := cleanText p
          page_number := pageNum } :: segPieces pageNum title ps
      else segPieces pageNum title ps

/-- Segmentation half of `segment_document` for one page
(src/document_processor.py:63-90): clean the page text, split at the heading
pattern, and either emit one `"Gesamtdokument"` segment (no heading found) or
run the title/body loop over the pieces. -/
def segmentPage (text : List Char) (pageNum : Nat) : List Segment :=
  let cleaned := cleanText text
  let pieces := splitHeading cleaned
  if pieces.length < 2 then
    if 10 < (pyWords cleaned).length then
      [{ title := "Gesamtdokument".toList, text := cleaned,
         page_number := pageNum }]
    else []
  else segPieces pageNum [] pieces

/-- Concrete failing page for C4: a recognized heading (`Ziele:`) followed by
an 11-word body. -/
def pageWithHeading : List Char :=
  "Ziele: eins zwei drei vier fuenf sechs sieben acht neun zehn elf".toList

/-- C4 evaluated at the failing input: the heading pattern does match the
cleaned page (so the segmentation is in its heading branch), yet the emitted
body segment that follows the heading carries the sentinel title
`"Abschnitt"`, not the heading. The `re.split` capture inserts only the bare
keyword (here `"Ziele"`, without its colon), which the re-test
`re.match(section_pattern, part)` can never accept, so `current_title` is
never assigned and every body segment falls back to the sentinel. -/
theorem segment_title_inheritance_failing :
    (matchHeadingAt (cleanText pageWithHeading)).isSome = true ∧
    splitHeading (cleanText pageWithHeading)
      = [[], "Ziele".toList,
         " eins zwei drei vier fuenf sechs sieben acht neun zehn elf".toList] ∧
    segmentPage pageWithHeading 1 =
      [{ title := "Abschnitt".toList
         text := "eins zwei drei vier fuenf sechs sieben acht neun zehn elf".toList
         page_number := 1 }] :=
  ⟨by decide, by decide, by decide⟩

/-- Metadata record as stored/returned by the vector store. Each field is
optional because the Python side reads the metadata dict with `.get` and a
default; `none` models an absent key. -/
structure Meta where
  filename : Option String
  title : Option String
  page_number : Option Nat
  chunk_index : Option Nat
  pdf_path : Option String
deriving DecidableEq, Repr

/-- Source record assembled by `process_query` (src/rag_engine.py:191-201).
String fields use the code's string defaults (`'Unbekannt'`, `''`), so they
share the value space with real entries exactly as in Python; for
`page_number`/`chunk_index` the Python default is the string `'N/A'`, which no
integer value can equal, so it is modelled as `none`. -/
structure Source where
  filename : String
  title : String
  page_number : Option Nat
  chunk_index : Option Nat
  pdf_path : String
deriving DecidableEq, Repr

/-- Projection of one metadata entry to a source record, mirroring the
`meta.get(...)` calls with defaults. -/
def sourceOfMeta (m : Meta) : Source :=
  { filename := m.filename.getD "Unbekannt"
    title := m.title.getD "Unbekannt"
    page_number := m.page_number
    chunk_index := m.chunk_index
    pdf_path := m.pdf_path.getD "" }

/-- Shape of the ChromaDB `collection.query` response used by
`retrieve_documents`: `results['documents']` and `results['metadatas']`, each
a list (one entry per query embedding) of lists. -/
structure StoreResp where
  documents : List (List String)
  metadatas : List (List Meta)

/-- Environment of one `retrieve_documents` call: the outcome of embedding
the query text with spaCy (which can raise), and the behavior of
`collection.query` (which can raise). -/
structure RetrieveEnv where
  embed : Except String (List Int)
  store : List Int → Except String StoreResp

/-- Squared Euclidean norm of the embedding vector; `vector_norm == 0` holds
exactly when the squared norm is zero (exact arithmetic). -/
def vectorNormSq (v : List Int) : Int :=
  (v.map (fun x => x * x)).sum

/-- Body of the `try` block of `RAGEngine.retrieve_documents`
(src/rag_engine.py:80-99): embed, short-circuit on a degenerate vector, query
the store, short-circuit when `results['documents']` is falsy or its first
entry is, then read `documents[0]` and `metadatas[0]` (the latter raising
`IndexError` when `metadatas` is empty). -/
def retrieveCore (env : RetrieveEnv) : Except String (List String × List Meta) :=
  match env.embed with
  | .error e => .error e
  | .ok v =>
    if vectorNormSq v = 0 then .ok ([], [])
    else
      match env.store v with
      | .error e => .error e
      | .ok results =>
        match results.documents with
        | [] => .ok ([], [])
        | d0 :: _ =>
          if d0.isEmpty then .ok ([], [])
          else
            match results.metadatas with
            | [] => .error "IndexError: list index out of range"
            | m0 :: _ => .ok (d0, m0)

/-- `RAGEngine.retrieve_documents` with its catch-all `except` clause: any
exception inside the try block is logged and mapped to `([], [])`. -/
def retrieve_documents (env : RetrieveEnv) : List String × List Meta :=
  match retrieveCore env with
  | .ok p => p
  | .error _ => ([], [])

/-- Outcome of the HTTP call in `RAGEngine._query_ollama`: a 2xx response
with an optional `response` JSON field, a connection error, a timeout, or any
other failure (non-2xx status raised by `raise_for_status`, JSON decoding
errors, …) carrying its message. -/
inductive HttpOutcome where
  | ok (responseField : Option String)
  | connectionError
  | timeout
  | otherError (msg : String)

/-- `RAGEngine._query_ollama` (src/rag_engine.py:54-78): total at the string
level — every outcome is mapped to a string, no exception escapes. -/
def queryOllama : HttpOutcome → String
  | .ok r => r.getD "Keine Antwort erhalten."
  | .connectionError =>
      "Fehler: Verbindung zu Ollama fehlgeschlagen. Stellen Sie sicher, dass Ollama läuft."
  | .timeout => "Fehler: Zeitüberschreitung bei der Anfrage an Ollama."
  | .otherError e => "Fehler bei der Anfrage: " ++ e

/-- Environment of one `process_query` call: retrieval environment plus the
generation backend's behavior. -/
structure QueryEnv extends RetrieveEnv where
  ollama : HttpOutcome

/-- Result dict of `process_query`. `context_count` is optional because the
empty-retrieval return statement (src/rag_engine.py:181-186) builds a dict
without that key; `none` models the absent key. -/
structure QueryResult where
  answer : String
  sources : List Source
  query : String
  success : Bool
  context_count : Option Nat
deriving DecidableEq, Repr

/-- Fixed no-relevant-documents answer of `process_query`. -/
def noDocsAnswer : String :=
  "Entschuldigung, ich konnte keine relevanten Dokumente zu Ihrer Frage finden."

/-- One step of the source-deduplication loop:
`if source_info not in sources: sources.append(source_info)`. -/
def insertNew {β : Type} [DecidableEq β] (acc : List β) (s : β) : List β :=
  if s ∈ acc then acc else acc ++ [s]

/-- Source assembly loop of `process_query` (src/rag_engine.py:191-201). -/
def dedupSources (metas : List Meta) : List Source :=
  metas.foldl (fun acc m => insertNew acc (sourceOfMeta m)) []

/-- `RAGEngine.process_query` (src/rag_engine.py:176-209). -/
def process_query (env : QueryEnv) (query_text : String) : QueryResult :=
  let r := retrieve_documents env.toRetrieveEnv
  if r.1.isEmpty then
    { answer := noDocsAnswer
      sources := []
      query := query_text
      success := false
      context_count := none }
  else
    { answer := queryOllama env.ollama
      sources := dedupSources r.2
      query := query_text
      success := true
      context_count := some r.1.length }

/-- Reference first-seen deduplication: keep the first occurrence of each
element, drop every later duplicate. -/
def firstSeen {β : Type} [DecidableEq β] : List β → List β
  | [] => []
  | x :: xs => x :: (firstSeen xs).filter (fun y => decide (y ≠ x))

theorem firstSeen_nodup {β : Type} [DecidableEq β] (l : List β) :
    (firstSeen l).Nodup := by
  induction l with
  | nil => exact List.nodup_nil
  | cons x xs ih =>
    rw [firstSeen, List.nodup_cons]
    constructor
    · intro hx
      rcases List.mem_filter.mp hx with ⟨_, hdec⟩
      simp at hdec
    · exact ih.filter _

theorem mem_firstSeen {β : Type} [DecidableEq β] (a : β) (l : List β) :
    a ∈ firstSeen l ↔ a ∈ l := by
  induction l with
  | nil => simp [firstSeen]
  | cons x xs ih =>
    rw [firstSeen]
    by_cases hax : a = x
    · subst hax
      simp
    · simp only [List.mem_cons, List.mem_filter, ih, decide_eq_true_eq]
      constructor
      · rintro (h | ⟨h, _⟩)
        · exact Or.inl h
        · exact Or.inr h
      · rintro (h | h)
        · exact Or.inl h
        · exact Or.inr ⟨h, hax⟩

theorem foldl_insertNew {β : Type} [DecidableEq β] (l : List β) :
    ∀ acc, l.foldl insertNew acc
      = acc ++ (firstSeen l).filter (fun y => decide (y ∉ acc)) := by
  induction l with
  | nil =>
    intro acc
    simp [firstSeen]
  | cons x xs ih =>
    intro acc
    rw [List.foldl_cons]
    by_cases hx : x ∈ acc
    · rw [show insertNew acc x = acc from if_pos hx, ih acc, firstSeen]
      congr 1
      have h1 : List.filter (fun y => decide (y ∉ acc))
            (x :: (firstSeen xs).filter (fun y => decide (y ≠ x)))
          = List.filter (fun y => decide (y ∉ acc))
            ((firstSeen xs).filter (fun y => decide (y ≠ x))) := by
        simp [hx]
      rw [h1, List.filter_filter]
      refine List.filter_congr ?_
      intro a _
      by_cases hxa : a = x
      · subst hxa
        simp [hx]
      · simp [hxa]
    · rw [show insertNew acc x = acc ++ [x] from if_neg hx, ih (acc ++ [x]),
        firstSeen]
      have h1 : List.filter (fun y => decide (y ∉ acc))
            (x :: (firstSeen xs).filter (fun y => decide (y ≠ x)))
          = x :: List.filter (fun y => decide (y ∉ acc))
            ((firstSeen xs).filter (fun y => decide (y ≠ x))) := by
        simp [hx]
      rw [h1, List.filter_filter, List.append_assoc, List.singleton_append]
      congr 2
      refine List.filter_congr ?_
      intro a _
      by_cases hxa : a = x
      · subst hxa
        simp
      · simp [hxa, List.mem_append]

theorem dedupSources_eq_firstSeen (metas : List Meta) :
    dedupSources metas = firstSeen (metas.map sourceOfMeta) := by
  unfold dedupSources
  rw [← List.foldl_map, foldl_insertNew]
  simp

theorem retrieve_documents_degenerate (env : RetrieveEnv) (v : List Int)
    (h : env.embed = .ok v) (hz : vectorNormSq v = 0) :
    retrieve_documents env = ([], []) := by
  simp [retrieve_documents, retrieveCore, h, hz]

theorem process_query_degenerate (env : QueryEnv) (v : List Int) (q : String)
    (h : env.embed = .ok v) (hz : vectorNormSq v = 0) :
    process_query env q = ⟨noDocsAnswer, [], q, false, none⟩ := by
  have hr : retrieve_documents env.toRetrieveEnv = ([], []) :=
    retrieve_documents_degenerate _ v h hz
  simp [process_query, hr]

theorem retrieve_documents_empty (env : RetrieveEnv) (v : List Int)
    (resp : StoreResp) (h : env.embed = .ok v) (hs : env.store v = .ok resp)
    (hd : resp.documents = [] ∨ resp.documents.head? = some []) :
    retrieve_documents env = ([], []) := by
  by_cases hz : vectorNormSq v = 0
  · exact retrieve_documents_degenerate env v h hz
  · rcases hdoc : resp.documents with _ | ⟨d0, rest⟩
    · simp [retrieve_documents, retrieveCore, h, hz, hs, hdoc]
    · rcases hd with hd | hd
      · rw [hdoc] at hd
        exact absurd hd (by simp)
      · rw [hdoc] at hd
        simp only [List.head?_cons, Option.some.injEq] at hd
        simp [retrieve_documents, retrieveCore, h, hz, hs, hdoc, hd]

/-- Concrete environment with a degenerate (all-zero) query embedding. -/
def envDegenerate : QueryEnv :=
  { embed := .ok [0, 0], store := fun _ => .ok ⟨[], []⟩,
    ollama := .connectionError }

/-- Concrete environment whose store holds zero matching records (ChromaDB
returns one empty result row per query embedding). -/
def envEmptyStore : RetrieveEnv :=
  { embed := .ok [1], store := fun _ => .ok ⟨[[]], [[]]⟩ }

/-- Concrete metadata entry used in witnesses. -/
def metaSample : Meta :=
  ⟨some "f.pdf", some "Dauer:", some 1, some 1, some "/tmp/f.pdf"⟩

/-- Concrete environment with one retrieved document and an unreachable
generation backend. -/
def envHit : QueryEnv :=
  { embed := .ok [1], store := fun _ => .ok ⟨[["doc eins"]], [[metaSample]]⟩,
    ollama := .connectionError }

/-- Concrete environment whose embedding step raises. -/
def envEmbedErr : RetrieveEnv :=
  { embed := .error "spacy failure", store := fun _ => .ok ⟨[], []⟩ }

/-- Concrete environment whose store query raises. -/
def envStoreErr : RetrieveEnv :=
  { embed := .ok [1], store := fun _ => .error "chroma failure" }

/-- Concrete environment whose store response has documents but no metadata
row, so `metadatas[0]` raises `IndexError` inside the try block. -/
def envMalformed : RetrieveEnv :=
  { embed := .ok [1], store := fun _ => .ok ⟨[["doc eins"]], []⟩ }

/-- C5: a degenerate (zero-norm) query embedding makes `retrieve_documents`
return the empty pair, and `process_query` then returns the fixed
no-relevant-documents answer with `success = false` and no sources; a store
with zero matching records (empty result row) produces the same empty pair. -/
theorem degenerate_query_short_circuit :
    (∀ (env : RetrieveEnv) (v : List Int), env.embed = .ok v →
      vectorNormSq v = 0 → retrieve_documents env = ([], [])) ∧
    (∀ (env : QueryEnv) (v : List Int) (q : String), env.embed = .ok v →
      vectorNormSq v = 0 →
      process_query env q = ⟨noDocsAnswer, [], q, false, none⟩) ∧
    (∀ (env : RetrieveEnv) (v : List Int) (resp : StoreResp),
      env.embed = .ok v → env.store v = .ok resp →
      (resp.documents = [] ∨ resp.documents.head? = some []) →
      retrieve_documents env = ([], [])) :=
  ⟨retrieve_documents_degenerate,
   process_query_degenerate,
   retrieve_documents_empty⟩

/-- Witness for C5 at concrete environments. -/
theorem degenerate_query_short_circuit_witness :
    retrieve_documents envDegenerate.toRetrieveEnv = ([], []) ∧
    process_query envDegenerate "Frage"
      = ⟨noDocsAnswer, [], "Frage", false, none⟩ ∧
    retrieve_documents envEmptyStore = ([], []) :=
  ⟨degenerate_query_short_circuit.1 envDegenerate.toRetrieveEnv [0, 0] rfl
     (by decide),
   degenerate_query_short_circuit.2.1 envDegenerate [0, 0] "Frage" rfl
     (by decide),
   degenerate_query_short_circuit.2.2 envEmptyStore [1] ⟨[[]], [[]]⟩ rfl rfl
     (Or.inr rfl)⟩

/-- C6: the generation call is total at the string level — each failure mode
maps to its fixed German string (connection refusal, timeout, generic failure
embedding the message) and a missing `response` field maps to a fixed default;
consequently when retrieval found context and the backend refuses connections,
`process_query` still returns `success = true` with the fixed
connection-failure message as the answer. -/
theorem generation_client_strings :
    (∀ s, queryOllama (.ok (some s)) = s) ∧
    queryOllama (.ok none) = "Keine Antwort erhalten." ∧
    queryOllama .connectionError =
      "Fehler: Verbindung zu Ollama fehlgeschlagen. Stellen Sie sicher, dass Ollama läuft." ∧
    queryOllama .timeout = "Fehler: Zeitüberschreitung bei der Anfrage an Ollama." ∧
    (∀ m, queryOllama (.otherError m) = "Fehler bei der Anfrage: " ++ m) ∧
    (∀ (env : QueryEnv) (q : String), env.ollama = .connectionError →
      (retrieve_documents env.toRetrieveEnv).1 ≠ [] →
      (process_query env q).success = true ∧
      (process_query env q).answer =
        "Fehler: Verbindung zu Ollama fehlgeschlagen. Stellen Sie sicher, dass Ollama läuft.") := by
  refine ⟨fun s => rfl, rfl, rfl, rfl, fun m => rfl, ?_⟩
  intro env q ho hne
  have hie : (retrieve_documents env.toRetrieveEnv).1.isEmpty = false := by
    rcases hx : (retrieve_documents env.toRetrieveEnv).1 with _ | ⟨a, t⟩
    · exact absurd hx hne
    · rfl
  constructor
  · simp [process_query, hie]
  · simp [process_query, hie, ho, queryOllama]

/-- Witness for C6 at a concrete environment with one retrieved document and
a refused connection. -/
theorem generation_client_strings_witness :
    (process_query envHit "Frage").success = true ∧
    (process_query envHit "Frage").answer =
      "Fehler: Verbindung zu Ollama fehlgeschlagen. Stellen Sie sicher, dass Ollama läuft." :=
  generation_client_strings.2.2.2.2.2 envHit "Frage" rfl (by decide)

/-- C7: the source list assembled by `process_query` is the first-seen
deduplication of the projected metadata records: the loop equals the reference
`firstSeen`, its output has no duplicates, it contains a source iff some
retrieved metadata entry projects to it, and on both paths of `process_query`
the `sources` field is that deduplication of the retrieved metadata. -/
theorem sources_dedup_first_seen :
    (∀ metas : List Meta, dedupSources metas = firstSeen (metas.map sourceOfMeta)) ∧
    (∀ metas : List Meta, (dedupSources metas).Nodup) ∧
    (∀ (metas : List Meta) (s : Source),
      s ∈ dedupSources metas ↔ s ∈ metas.map sourceOfMeta) ∧
    (∀ (env : QueryEnv) (q : String),
      (process_query env q).sources
        = firstSeen ((if (retrieve_documents env.toRetrieveEnv).1.isEmpty then
            ([] : List Meta)
          else (retrieve_documents env.toRetrieveEnv).2).map sourceOfMeta)) := by
  refine ⟨dedupSources_eq_firstSeen, ?_, ?_, ?_⟩
  · intro metas
    rw [dedupSources_eq_firstSeen]
    exact firstSeen_nodup _
  · intro metas s
    rw [dedupSources_eq_firstSeen]
    exact mem_firstSeen s _
  · intro env q
    cases hie : (retrieve_documents env.toRetrieveEnv).1.isEmpty with
    | true => simp [process_query, hie, firstSeen]
    | false => simp [process_query, hie, dedupSources_eq_firstSeen]

/-- C9 (amended): on the success path the result of `process_query` carries
all five fields, with `context_count` equal to the number of retrieved
passages; on the empty-retrieval path the returned dict has only the four
fields `answer`, `sources`, `query`, `success` — the `context_count` key is
absent. -/
theorem query_result_field_presence :
    (∀ (env : QueryEnv) (q : String),
      (retrieve_documents env.toRetrieveEnv).1 ≠ [] →
      (process_query env q).context_count
          = some (retrieve_documents env.toRetrieveEnv).1.length ∧
      (process_query env q).success = true) ∧
    (∀ (env : QueryEnv) (q : String),
      (retrieve_documents env.toRetrieveEnv).1 = [] →
      (process_query env q).context_count = none ∧
      (process_query env q).success = false ∧
      (process_query env q).sources = [] ∧
      (process_query env q).answer = noDocsAnswer) := by
  constructor
  · intro env q hne
    have hie : (retrieve_documents env.toRetrieveEnv).1.isEmpty = false := by
      rcases hx : (retrieve_documents env.toRetrieveEnv).1 with _ | ⟨a, t⟩
      · exact absurd hx hne
      · rfl
    constructor
    · simp [process_query, hie]
    · simp [process_query, hie]
  · intro env q he
    have hie : (retrieve_documents env.toRetrieveEnv).1.isEmpty = true := by
      rw [he]
      rfl
    refine ⟨?_, ?_, ?_, ?_⟩ <;> simp [process_query, hie]

/-- Witness for C9 (amended) at concrete environments for both paths. -/
theorem query_result_field_presence_witness :
    ((process_query envHit "Frage").context_count
        = some (retrieve_documents envHit.toRetrieveEnv).1.length ∧
      (process_query envHit "Frage").success = true) ∧
    ((process_query envDegenerate "Frage").context_count = none ∧
      (process_query envDegenerate "Frage").success = false ∧
      (process_query envDegenerate "Frage").sources = [] ∧
      (process_query envDegenerate "Frage").answer = noDocsAnswer) :=
  ⟨query_result_field_presence.1 envHit "Frage" (by decide),
   query_result_field_presence.2 envDegenerate "Frage" (by decide)⟩

/-- Counterexample to C9 as stated: at a degenerate query the result of
`process_query` has no `context_count` field at all (the key is absent from
the returned dict), rather than carrying all five `QueryResult` fields with
`context_count` equal to the (zero) number of retrieved passages. -/
theorem query_result_missing_context_count :
    (process_query envDegenerate "Frage").context_count = none ∧
    ¬ ((process_query envDegenerate "Frage").context_count
        = some (retrieve_documents envDegenerate.toRetrieveEnv).1.length) :=
  ⟨rfl, by decide⟩

/-- C10: `retrieve_documents` is total at its interface: an embedding
exception, a store-query exception, and a malformed store response (documents
present but no metadata row, raising `IndexError`) are all caught and mapped
to the empty pair, indistinguishable from an empty retrieval. -/
theorem retrieve_documents_total_interface :
    (∀ (env : RetrieveEnv) (e : String), env.embed = .error e →
      retrieve_documents env = ([], [])) ∧
    (∀ (env : RetrieveEnv) (v : List Int) (e : String), env.embed = .ok v →
      env.store v = .error e → retrieve_documents env = ([], [])) ∧
    (∀ (env : RetrieveEnv) (v : List Int) (resp : StoreResp),
      env.embed = .ok v → env.store v = .ok resp → resp.metadatas = [] →
      retrieve_documents env = ([], [])) := by
  refine ⟨?_, ?_, ?_⟩
  · intro env e h
    simp [retrieve_documents, retrieveCore, h]
  · intro env v e h hs
    by_cases hz : vectorNormSq v = 0
    · exact retrieve_documents_degenerate env v h hz
    · simp [retrieve_documents, retrieveCore, h, hz, hs]
  · intro env v resp h hs hm
    by_cases hz : vectorNormSq v = 0
    · exact retrieve_documents_degenerate env v h hz
    · rcases hdoc : resp.documents with _ | ⟨d0, rest⟩
      · simp [retrieve_documents, retrieveCore, h, hz, hs, hdoc]
      · cases hd0 : d0.isEmpty with
        | true =>
          simp [retrieve_documents, retrieveCore, h, hz, hs, hdoc, hd0]
        | false =>
          simp [retrieve_documents, retrieveCore, h, hz, hs, hdoc, hd0, hm]

/-- Witness for C10 at concrete failing environments. -/
theorem retrieve_documents_total_interface_witness :
    retrieve_documents envEmbedErr = ([], []) ∧
    retrieve_documents envStoreErr = ([], []) ∧
    retrieve_documents envMalformed = ([], []) :=
  ⟨retrieve_documents_total_interface.1 envEmbedErr "spacy failure" rfl,
   retrieve_documents_total_interface.2.1 envStoreErr [1] "chroma failure" rfl
     rfl,
   retrieve_documents_total_interface.2.2 envMalformed [1] ⟨[["doc eins"]], []⟩
     rfl rfl rfl⟩

end UniRag
